import Mathlib

/-!
Shallow embedding of the signaling/negotiation core of `src/stores/call.ts`
(the `useCallStore` Pinia store of the videochat repository).

The store's mutable refs become fields of `CallState`; the JS objects used as
string-keyed maps (`peerConnections`, `remoteStreams`) become association
lists with JS object semantics (assignment to an existing key updates in
place, a new key is appended, `delete` removes the entry).  An
`RTCPeerConnection` is projected onto the three state fields the store
reads: `signalingState`, `connectionState`, `iceConnectionState`.

The code is single-threaded and event-driven; the promise chains in
`handleNewParticipant` / `handleOffer` / `handleAnswer` are collapsed to
their synchronous happy path (`createOffer` / `setLocalDescription` /
`setRemoteDescription` resolve immediately), which matches the spec's
cooperative-scheduler model.  Each event handler is a pure function from a
`CallState` to a new `CallState` together with the list of outbound
signaling messages it sends; the `participants` branch additionally returns
the list of participant ids for which a 2-second fallback timer was armed
(`setTimeout` at call.ts:351).
-/

/-- RTCPeerConnection.signalingState, restricted to the values the store
reads and produces. -/
inductive SigState
  | stable
  | haveLocalOffer
  | haveRemoteOffer
  | closedSig
deriving DecidableEq, Repr

/-- RTCPeerConnection.connectionState. -/
inductive ConnState
  | newC
  | connecting
  | connected
  | disconnectedC
  | failedC
  | closedC
deriving DecidableEq, Repr

/-- RTCPeerConnection.iceConnectionState. -/
inductive IceState
  | newI
  | checking
  | connectedI
  | completed
  | disconnectedI
  | failedI
  | closedI
deriving DecidableEq, Repr

/-- Projection of an `RTCPeerConnection` onto the fields `call.ts` reads. -/
structure PC where
  signalingState : SigState
  connectionState : ConnState
  iceConnectionState : IceState
deriving DecidableEq, Repr

/-- A freshly constructed `RTCPeerConnection` (call.ts:102): signaling
`stable`, connection `new`, ICE `new`. -/
def freshPC : PC :=
  { signalingState := SigState.stable
    connectionState := ConnState.newC
    iceConnectionState := IceState.newI }

/-- A remote `MediaStream`: its `id` plus an abstract payload standing for
the tracks, so that two distinct streams can share an id. -/
structure MediaStream where
  id : String
  payload : String
deriving DecidableEq, Repr

/-- One entry of a `participants` roster snapshot (call.ts:8). -/
structure Participant where
  id : String
  name : String
deriving DecidableEq, Repr

/-- Outbound signaling messages sent through `send` (call.ts:43), projected
onto type and target; the session-description/candidate payloads are not
inspected by any property. -/
inductive Msg
  | offer (target : String)
  | answer (target : String)
  | iceCandidate (target : String)
deriving DecidableEq, Repr

/-- Inbound signaling messages dispatched by `handleMessage` (call.ts:306).
The `offer`/`answer`/`candidate` payloads are present whenever the message
carries a nonempty `source` (the guards at call.ts:380/388/396 test both);
an empty `source` models a missing/falsy `data.source`. -/
inductive InMsg
  | participants (parts : List Participant)
  | offer (source : String)
  | answer (source : String)
  | iceCandidate (source : String)
  | unknown (t : String)
deriving DecidableEq, Repr

/-- The store's mutable state: `localParticipantId` (empty string = unset,
call.ts:33), the peer-connection registry and the remote-stream map. -/
structure CallState where
  localParticipantId : String
  peerConnections : List (String × PC)
  remoteStreams : List (String × List MediaStream)
deriving DecidableEq, Repr

/-- JS object read `obj[k]`: first (and only) binding of key `k`. -/
def alookup {β : Type} (k : String) : List (String × β) → Option β
  | [] => none
  | (k', v) :: rest => if k' = k then some v else alookup k rest

/-- JS object write `obj[k] = v`: update in place, or append a new key. -/
def aset {β : Type} (k : String) (v : β) : List (String × β) → List (String × β)
  | [] => [(k, v)]
  | (k', v') :: rest => if k' = k then (k, v) :: rest else (k', v') :: aset k v rest

/-- JS `delete obj[k]`. -/
def aremove {β : Type} (k : String) : List (String × β) → List (String × β)
  | [] => []
  | (k', v') :: rest => if k' = k then aremove k rest else (k', v') :: aremove k rest

/-- `createPeerConnection` (call.ts:96): if an entry for `participantId`
already exists the call returns at once; otherwise a fresh connection is
constructed and registered. -/
def createPeerConnection (st : CallState) (participantId : String) : CallState :=
  match alookup participantId st.peerConnections with
  | some _ => st
  | none =>
      { st with peerConnections := aset participantId freshPC st.peerConnections }

/-- The `pc.ontrack` handler (call.ts:112): take `event.streams[0]` (warn and
return when absent), create the stream list for the participant when missing,
and append the stream only when no stream with the same id is present. -/
def ontrack (st : CallState) (participantId : String)
    (eventStreams : List MediaStream) : CallState :=
  match eventStreams.head? with
  | none => st
  | some stream =>
      let st1 :=
        match alookup participantId st.remoteStreams with
        | some _ => st
        | none => { st with remoteStreams := aset participantId [] st.remoteStreams }
      let cur := (alookup participantId st1.remoteStreams).getD []
      if cur.any (fun s => s.id == stream.id) then st1
      else { st1 with remoteStreams := aset participantId (cur ++ [stream]) st1.remoteStreams }

/-- The `pc.oniceconnectionstatechange` handler (call.ts:137), fired after the
connection's ICE state has changed to `s`: on `disconnected`/`failed`/`closed`
it deletes the participant's remote streams, closes the connection and deletes
the registry entry. -/
def iceStateChange (st : CallState) (participantId : String) (s : IceState) : CallState :=
  match alookup participantId st.peerConnections with
  | none => st
  | some pc =>
      let st1 := { st with
        peerConnections :=
          aset participantId { pc with iceConnectionState := s } st.peerConnections }
      if s = IceState.disconnectedI ∨ s = IceState.failedI ∨ s = IceState.closedI then
        { st1 with
            remoteStreams := aremove participantId st1.remoteStreams,
            peerConnections := aremove participantId st1.peerConnections }
      else st1

/-- The `pc.onconnectionstatechange` handler (call.ts:155), fired after the
connection state has changed to `c`: on `disconnected`/`failed`/`closed` it
deletes the participant's remote streams, but it closes and deletes the
registry entry only when the state is `closed` (call.ts:168, the comment
reads: only close and remove if really disconnected, avoid premature
removal). -/
def connStateChange (st : CallState) (participantId : String) (c : ConnState) : CallState :=
  match alookup participantId st.peerConnections with
  | none => st
  | some pc =>
      let st1 := { st with
        peerConnections :=
          aset participantId { pc with connectionState := c } st.peerConnections }
      if c = ConnState.connected then st1
      else if c = ConnState.disconnectedC ∨ c = ConnState.failedC ∨ c = ConnState.closedC then
        let st2 := { st1 with remoteStreams := aremove participantId st1.remoteStreams }
        if c = ConnState.closedC then
          { st2 with peerConnections := aremove participantId st2.peerConnections }
        else st2
      else st1

/-- The guard at call.ts:198: create the peer connection if it does not
exist, or if its connection state or ICE connection state is `closed`.
(`createPeerConnection` itself returns at once when an entry exists, so the
closed-state re-check never replaces a live entry.) -/
def recreateIfClosed (st : CallState) (participantId : String) : CallState :=
  match alookup participantId st.peerConnections with
  | none => createPeerConnection st participantId
  | some pc =>
      if pc.connectionState = ConnState.closedC
          ∨ pc.iceConnectionState = IceState.closedI then
        createPeerConnection st participantId
      else st

/-- `handleNewParticipant` (call.ts:189): a no-op while `localParticipantId`
is unset; otherwise (re)create the connection when absent or `closed`, and
when the signaling state is `stable` create an offer, apply it as the local
description (signaling state becomes `have-local-offer`) and send it. -/
def handleNewParticipant (st : CallState) (participantId : String) : CallState × List Msg :=
  if st.localParticipantId = "" then (st, [])
  else
    let st1 := recreateIfClosed st participantId
    match alookup participantId st1.peerConnections with
    | none => (st1, [])
    | some pc =>
        if pc.signalingState = SigState.stable then
          ({ st1 with
              peerConnections :=
                aset participantId { pc with signalingState := SigState.haveLocalOffer }
                  st1.peerConnections },
           [Msg.offer participantId])
        else (st1, [])

/-- `handleOffer` (call.ts:238): create the session if absent, apply the
remote offer (legal from `stable` or `have-remote-offer`; from any other
state `setRemoteDescription` rejects and the error is only logged), then
create an answer, apply it as local description (signaling state returns to
`stable`) and send it. -/
def handleOffer (st : CallState) (source : String) : CallState × List Msg :=
  let st1 := createPeerConnection st source
  match alookup source st1.peerConnections with
  | none => (st1, [])
  | some pc =>
      if pc.signalingState = SigState.stable ∨ pc.signalingState = SigState.haveRemoteOffer then
        ({ st1 with
            peerConnections :=
              aset source { pc with signalingState := SigState.stable } st1.peerConnections },
         [Msg.answer source])
      else (st1, [])

/-- `handleAnswer` (call.ts:273): warn and return when no session exists;
apply the answer when in `have-local-offer` (signaling state becomes
`stable`); when in `stable` re-initiate by calling `handleNewParticipant`
(call.ts:284); in any other state only log. -/
def handleAnswer (st : CallState) (source : String) : CallState × List Msg :=
  match alookup source st.peerConnections with
  | none => (st, [])
  | some pc =>
      if pc.signalingState = SigState.haveLocalOffer then
        ({ st with
            peerConnections :=
              aset source { pc with signalingState := SigState.stable } st.peerConnections }, [])
      else if pc.signalingState = SigState.stable then
        handleNewParticipant st source
      else (st, [])

/-- `handleIceCandidate` (call.ts:296): when a session exists the candidate
is added to the connection's pool (not part of the projected state); when
none exists the message is dropped. -/
def handleIceCandidate (st : CallState) (source : String) : CallState × List Msg :=
  match alookup source st.peerConnections with
  | some _ => (st, [])
  | none => (st, [])

/-- The combined test `needsNewConnection || hasConnectionButNoStream` of the
`participants` branch (call.ts:329): no entry, or entry with connection state
`closed`/`failed` or ICE state `closed`, or an entry with no remote-stream
list. -/
def rosterNeeds (st : CallState) (pid : String) : Bool :=
  match alookup pid st.peerConnections with
  | none => true
  | some pc =>
      (pc.connectionState == ConnState.closedC)
        || (pc.iceConnectionState == IceState.closedI)
        || (pc.connectionState == ConnState.failedC)
        || (alookup pid st.remoteStreams).isNone

/-- The body of the `participants.forEach` (call.ts:320) for one id: skip a
falsy id or the local id; when a connection is needed, always create the
session, then initiate when the local id is lexicographically smaller than
the remote id, else arm the 2-second fallback timer (call.ts:351). -/
def processParticipant (st : CallState) (pid : String) : CallState × List Msg × List String :=
  if pid = "" ∨ pid = st.localParticipantId then (st, [], [])
  else if rosterNeeds st pid then
    let st1 := createPeerConnection st pid
    if st.localParticipantId < pid then
      let r := handleNewParticipant st1 pid
      (r.1, r.2, [])
    else (st1, [], [pid])
  else (st, [], [])

/-- The `participants.forEach` loop over the ids of the snapshot, threading
the state and concatenating sent messages and armed timers. -/
def processList (st : CallState) : List String → CallState × List Msg × List String
  | [] => (st, [], [])
  | pid :: rest =>
      let r1 := processParticipant st pid
      let r2 := processList r1.1 rest
      (r2.1, r1.2.1 ++ r2.2.1, r1.2.2 ++ r2.2.2)

/-- The disconnected-participants sweep (call.ts:364): for every key of the
registry snapshot `ks` not contained in the roster ids, close the
connection, delete the registry entry and delete the stream entry. -/
def removeAbsent (ids : List String) (ks : List String) (st : CallState) : CallState :=
  match ks with
  | [] => st
  | k :: rest =>
      let st1 :=
        if k ∈ ids then st
        else { st with
                peerConnections := aremove k st.peerConnections,
                remoteStreams := aremove k st.remoteStreams }
      removeAbsent ids rest st1

/-- The whole `participants` branch of `handleMessage` (call.ts:313): process
every participant of the snapshot, then sweep registry keys absent from the
snapshot. -/
def processRoster (st : CallState) (parts : List Participant) :
    CallState × List Msg × List String :=
  let ids := parts.map Participant.id
  let r := processList st ids
  (removeAbsent ids (r.1.peerConnections.map Prod.fst) r.1, r.2.1, r.2.2)

/-- `handleMessage` (call.ts:306): dispatch on the message type; `offer`,
`answer` and `ice-candidate` messages with a falsy `source` are logged and
dropped, unknown types are logged and dropped. -/
def handleMessage (st : CallState) (m : InMsg) : CallState × List Msg × List String :=
  match m with
  | InMsg.participants parts => processRoster st parts
  | InMsg.offer source =>
      if source = "" then (st, [], [])
      else ((handleOffer st source).1, (handleOffer st source).2, [])
  | InMsg.answer source =>
      if source = "" then (st, [], [])
      else ((handleAnswer st source).1, (handleAnswer st source).2, [])
  | InMsg.iceCandidate source =>
      if source = "" then (st, [], [])
      else ((handleIceCandidate st source).1, (handleIceCandidate st source).2, [])
  | InMsg.unknown _ => (st, [], [])

/-- Expiry of the fallback timer armed at call.ts:351: when the session still
exists, its signaling state is `stable` and no remote-stream entry exists for
the participant, initiate via `handleNewParticipant`; otherwise do nothing. -/
def timerExpire (st : CallState) (pid : String) : CallState × List Msg :=
  match alookup pid st.peerConnections with
  | none => (st, [])
  | some pc =>
      if pc.signalingState = SigState.stable ∧ (alookup pid st.remoteStreams).isNone then
        handleNewParticipant st pid
      else (st, [])

/-- Every per-participant remote-stream list holds pairwise distinct stream
ids. -/
def streamsNodup (st : CallState) : Prop :=
  ∀ e ∈ st.remoteStreams, List.Nodup (e.2.map MediaStream.id)

/-! ### Association-list lemmas -/

@[simp]
theorem alookup_nil {β : Type} (k : String) : alookup (β := β) k [] = none := rfl

@[simp]
theorem alookup_cons {β : Type} (k k' : String) (v : β) (l : List (String × β)) :
    alookup k ((k', v) :: l) = if k' = k then some v else alookup k l := rfl

theorem alookup_aset {β : Type} (k k' : String) (v : β) (l : List (String × β)) :
    alookup k (aset k' v l) = if k' = k then some v else alookup k l := by
  induction l with
  | nil => simp [aset]
  | cons hd tl ih =>
      obtain ⟨a, b⟩ := hd
      by_cases hak : a = k' <;> by_cases hk : k' = k <;>
        simp_all [aset, alookup]

theorem alookup_aremove {β : Type} (k k' : String) (l : List (String × β)) :
    alookup k (aremove k' l) = if k' = k then none else alookup k l := by
  induction l with
  | nil => simp [aremove]
  | cons hd tl ih =>
      obtain ⟨a, b⟩ := hd
      by_cases hak : a = k' <;> by_cases hk : k' = k <;>
        simp_all [aremove, alookup]

theorem alookup_mem {β : Type} {k : String} {v : β} {l : List (String × β)}
    (h : alookup k l = some v) : (k, v) ∈ l := by
  induction l with
  | nil => simp [alookup] at h
  | cons hd tl ih =>
      obtain ⟨a, b⟩ := hd
      by_cases hak : a = k
      · subst hak
        simp [alookup] at h
        simp [h]
      · simp [alookup, hak] at h
        exact List.mem_cons_of_mem _ (ih h)

theorem alookup_isSome_iff {β : Type} (k : String) (l : List (String × β)) :
    (alookup k l).isSome ↔ k ∈ l.map Prod.fst := by
  induction l with
  | nil => simp [alookup]
  | cons hd tl ih =>
      obtain ⟨a, b⟩ := hd
      by_cases hak : a = k
      · subst hak
        simp [alookup]
      · have hka : ¬k = a := fun h => hak h.symm
        simp [alookup, hak, hka, ih]

theorem mem_aset {β : Type} {e : String × β} {k : String} {v : β} {l : List (String × β)}
    (h : e ∈ aset k v l) : e = (k, v) ∨ e ∈ l := by
  induction l with
  | nil =>
      simp [aset] at h
      simp [h]
  | cons hd tl ih =>
      obtain ⟨a, b⟩ := hd
      by_cases hak : a = k
      · subst hak
        simp [aset] at h
        rcases h with h | h
        · simp [h]
        · exact Or.inr (List.mem_cons_of_mem _ h)
      · simp [aset, hak] at h
        rcases h with h | h
        · exact Or.inr (by simp [h])
        · rcases ih h with h1 | h1
          · exact Or.inl h1
          · exact Or.inr (List.mem_cons_of_mem _ h1)

/-! ### Frame lemmas: what each operation leaves untouched -/

theorem createPeerConnection_local (st : CallState) (pid : String) :
    (createPeerConnection st pid).localParticipantId = st.localParticipantId := by
  rcases hl : alookup pid st.peerConnections with _ | pc <;> simp [createPeerConnection, hl]

theorem createPeerConnection_streams (st : CallState) (pid : String) :
    (createPeerConnection st pid).remoteStreams = st.remoteStreams := by
  rcases hl : alookup pid st.peerConnections with _ | pc <;> simp [createPeerConnection, hl]

theorem createPeerConnection_lookup_ne (st : CallState) {pid k : String} (h : pid ≠ k) :
    alookup k (createPeerConnection st pid).peerConnections =
      alookup k st.peerConnections := by
  rcases hl : alookup pid st.peerConnections with _ | pc <;>
    simp [createPeerConnection, hl, alookup_aset, h]

theorem createPeerConnection_lookup_self (st : CallState) (pid : String) :
    alookup pid (createPeerConnection st pid).peerConnections =
      some ((alookup pid st.peerConnections).getD freshPC) := by
  rcases hl : alookup pid st.peerConnections with _ | pc <;>
    simp [createPeerConnection, hl, alookup_aset]

theorem createPeerConnection_isSome (st : CallState) (pid k : String)
    (h : (alookup k st.peerConnections).isSome) :
    (alookup k (createPeerConnection st pid).peerConnections).isSome := by
  by_cases hk : pid = k
  · subst hk
    simp [createPeerConnection_lookup_self]
  · rwa [createPeerConnection_lookup_ne st hk]

theorem recreateIfClosed_eq (st : CallState) (pid : String) :
    recreateIfClosed st pid = createPeerConnection st pid ∨ recreateIfClosed st pid = st := by
  unfold recreateIfClosed
  rcases hl : alookup pid st.peerConnections with _ | pc
  · exact Or.inl rfl
  · by_cases hc : pc.connectionState = ConnState.closedC
        ∨ pc.iceConnectionState = IceState.closedI
    · simp [hl, hc]
    · simp [hl, hc]

theorem recreateIfClosed_local (st : CallState) (pid : String) :
    (recreateIfClosed st pid).localParticipantId = st.localParticipantId := by
  rcases recreateIfClosed_eq st pid with h | h <;> rw [h]
  exact createPeerConnection_local st pid

theorem recreateIfClosed_streams (st : CallState) (pid : String) :
    (recreateIfClosed st pid).remoteStreams = st.remoteStreams := by
  rcases recreateIfClosed_eq st pid with h | h <;> rw [h]
  exact createPeerConnection_streams st pid

theorem recreateIfClosed_lookup_ne (st : CallState) {pid k : String} (h : pid ≠ k) :
    alookup k (recreateIfClosed st pid).peerConnections = alookup k st.peerConnections := by
  rcases recreateIfClosed_eq st pid with h1 | h1 <;> rw [h1]
  exact createPeerConnection_lookup_ne st h

theorem recreateIfClosed_isSome (st : CallState) (pid k : String)
    (h : (alookup k st.peerConnections).isSome) :
    (alookup k (recreateIfClosed st pid).peerConnections).isSome := by
  rcases recreateIfClosed_eq st pid with h1 | h1 <;> rw [h1]
  · exact createPeerConnection_isSome st pid k h
  · exact h

/-- When the entry is present and not closed, the recreate guard does
nothing. -/
theorem recreateIfClosed_id (st : CallState) {pid : String} {pc : PC}
    (hl : alookup pid st.peerConnections = some pc)
    (hc : pc.connectionState ≠ ConnState.closedC)
    (hi : pc.iceConnectionState ≠ IceState.closedI) :
    recreateIfClosed st pid = st := by
  simp [recreateIfClosed, hl, hc, hi]

theorem handleNewParticipant_local (st : CallState) (pid : String) :
    (handleNewParticipant st pid).1.localParticipantId = st.localParticipantId := by
  unfold handleNewParticipant
  by_cases h0 : st.localParticipantId = ""
  · simp [h0]
  · simp only [h0, if_false]
    rcases hl : alookup pid (recreateIfClosed st pid).peerConnections with _ | pc
    · simp [hl, recreateIfClosed_local]
    · by_cases hs : pc.signalingState = SigState.stable <;>
        simp [hl, hs, recreateIfClosed_local]

theorem handleNewParticipant_streams (st : CallState) (pid : String) :
    (handleNewParticipant st pid).1.remoteStreams = st.remoteStreams := by
  unfold handleNewParticipant
  by_cases h0 : st.localParticipantId = ""
  · simp [h0]
  · simp only [h0, if_false]
    rcases hl : alookup pid (recreateIfClosed st pid).peerConnections with _ | pc
    · simp [hl, recreateIfClosed_streams]
    · by_cases hs : pc.signalingState = SigState.stable <;>
        simp [hl, hs, recreateIfClosed_streams]

theorem handleNewParticipant_lookup_ne (st : CallState) {pid k : String} (h : pid ≠ k) :
    alookup k (handleNewParticipant st pid).1.peerConnections =
      alookup k st.peerConnections := by
  unfold handleNewParticipant
  by_cases h0 : st.localParticipantId = ""
  · simp [h0]
  · simp only [h0, if_false]
    rcases hl : alookup pid (recreateIfClosed st pid).peerConnections with _ | pc
    · simp [hl, recreateIfClosed_lookup_ne st h]
    · by_cases hs : pc.signalingState = SigState.stable <;>
        simp [hl, hs, alookup_aset, h, recreateIfClosed_lookup_ne st h]

theorem handleNewParticipant_isSome (st : CallState) (pid k : String)
    (h : (alookup k st.peerConnections).isSome) :
    (alookup k (handleNewParticipant st pid).1.peerConnections).isSome := by
  unfold handleNewParticipant
  by_cases h0 : st.localParticipantId = ""
  · simpa [h0] using h
  · simp only [h0, if_false]
    rcases hl : alookup pid (recreateIfClosed st pid).peerConnections with _ | pc
    · simpa [hl] using recreateIfClosed_isSome st pid k h
    · by_cases hs : pc.signalingState = SigState.stable
      · by_cases hk : pid = k
        · subst hk
          simp [hl, hs, alookup_aset]
        · simp [hl, hs, alookup_aset, hk]
          simpa using recreateIfClosed_isSome st pid k h
      · simpa [hl, hs] using recreateIfClosed_isSome st pid k h

theorem handleNewParticipant_msgs (st : CallState) (pid : String) {m : Msg}
    (h : m ∈ (handleNewParticipant st pid).2) : m = Msg.offer pid := by
  unfold handleNewParticipant at h
  by_cases h0 : st.localParticipantId = ""
  · simp [h0] at h
  · simp only [h0, if_false] at h
    rcases hl : alookup pid (recreateIfClosed st pid).peerConnections with _ | pc
    · simp [hl] at h
    · by_cases hs : pc.signalingState = SigState.stable <;> simp [hl, hs] at h
      exact h

theorem rosterNeeds_false_isSome {st : CallState} {pid : String}
    (h : rosterNeeds st pid = false) : (alookup pid st.peerConnections).isSome := by
  unfold rosterNeeds at h
  rcases hl : alookup pid st.peerConnections with _ | pc
  · rw [hl] at h
    simp at h
  · simp

theorem processParticipant_local (st : CallState) (pid : String) :
    (processParticipant st pid).1.localParticipantId = st.localParticipantId := by
  unfold processParticipant
  by_cases h1 : pid = "" ∨ pid = st.localParticipantId
  · simp [h1]
  · by_cases h2 : rosterNeeds st pid = true
    · by_cases h3 : st.localParticipantId < pid
      · simp [h1, h2, h3, handleNewParticipant_local, createPeerConnection_local]
      · simp [h1, h2, h3, createPeerConnection_local]
    · simp [h1, h2]

theorem processParticipant_streams (st : CallState) (pid : String) :
    (processParticipant st pid).1.remoteStreams = st.remoteStreams := by
  unfold processParticipant
  by_cases h1 : pid = "" ∨ pid = st.localParticipantId
  · simp [h1]
  · by_cases h2 : rosterNeeds st pid = true
    · by_cases h3 : st.localParticipantId < pid
      · simp [h1, h2, h3, handleNewParticipant_streams, createPeerConnection_streams]
      · simp [h1, h2, h3, createPeerConnection_streams]
    · simp [h1, h2]

theorem processParticipant_lookup_ne (st : CallState) {pid k : String} (h : pid ≠ k) :
    alookup k (processParticipant st pid).1.peerConnections =
      alookup k st.peerConnections := by
  unfold processParticipant
  by_cases h1 : pid = "" ∨ pid = st.localParticipantId
  · simp [h1]
  · by_cases h2 : rosterNeeds st pid = true
    · by_cases h3 : st.localParticipantId < pid
      · simp [h1, h2, h3, handleNewParticipant_lookup_ne _ h,
          createPeerConnection_lookup_ne _ h]
      · simp [h1, h2, h3, createPeerConnection_lookup_ne _ h]
    · simp [h1, h2]

theorem processParticipant_isSome (st : CallState) (pid k : String)
    (h : (alookup k st.peerConnections).isSome) :
    (alookup k (processParticipant st pid).1.peerConnections).isSome := by
  unfold processParticipant
  by_cases h1 : pid = "" ∨ pid = st.localParticipantId
  · simpa [h1] using h
  · by_cases h2 : rosterNeeds st pid = true
    · by_cases h3 : st.localParticipantId < pid
      · simpa [h1, h2, h3] using
          handleNewParticipant_isSome _ pid k (createPeerConnection_isSome st pid k h)
      · simpa [h1, h2, h3] using createPeerConnection_isSome st pid k h
    · simpa [h1, h2] using h

theorem processParticipant_newkey (st : CallState) (pid k : String)
    (h : (alookup k (processParticipant st pid).1.peerConnections).isSome) :
    (alookup k st.peerConnections).isSome ∨
      (k = pid ∧ pid ≠ "" ∧ pid ≠ st.localParticipantId) := by
  by_cases hk : pid = k
  · subst hk
    unfold processParticipant at h
    by_cases h1 : pid = "" ∨ pid = st.localParticipantId
    · simp [h1] at h
      exact Or.inl h
    · push_neg at h1
      exact Or.inr ⟨rfl, h1.1, h1.2⟩
  · rw [processParticipant_lookup_ne st hk] at h
    exact Or.inl h

theorem processParticipant_covers (st : CallState) (pid : String)
    (h1 : pid ≠ "") (h2 : pid ≠ st.localParticipantId) :
    (alookup pid (processParticipant st pid).1.peerConnections).isSome := by
  unfold processParticipant
  have h12 : ¬(pid = "" ∨ pid = st.localParticipantId) := by
    push_neg
    exact ⟨h1, h2⟩
  by_cases hn : rosterNeeds st pid = true
  · by_cases h3 : st.localParticipantId < pid
    · simpa [h12, hn, h3] using
        handleNewParticipant_isSome _ pid pid
          (by simp [createPeerConnection_lookup_self])
    · simpa [h12, hn, h3] using (by simp [createPeerConnection_lookup_self] :
        (alookup pid (createPeerConnection st pid).peerConnections).isSome)
  · have := rosterNeeds_false_isSome (by simpa using hn)
    simpa [h12, hn] using this

theorem processParticipant_msgs (st : CallState) (pid : String) {m : Msg}
    (h : m ∈ (processParticipant st pid).2.1) :
    m = Msg.offer pid ∧ st.localParticipantId < pid := by
  unfold processParticipant at h
  by_cases h1 : pid = "" ∨ pid = st.localParticipantId
  · simp [h1] at h
  · by_cases h2 : rosterNeeds st pid = true
    · by_cases h3 : st.localParticipantId < pid
      · simp only [h1, h2, h3] at h
        simp at h
        exact ⟨handleNewParticipant_msgs _ pid h, h3⟩
      · simp [h1, h2, h3] at h
    · simp [h1, h2] at h

theorem processParticipant_timers (st : CallState) (pid : String) {q : String}
    (h : q ∈ (processParticipant st pid).2.2) :
    q = pid ∧ ¬st.localParticipantId < q := by
  unfold processParticipant at h
  by_cases h1 : pid = "" ∨ pid = st.localParticipantId
  · simp [h1] at h
  · by_cases h2 : rosterNeeds st pid = true
    · by_cases h3 : st.localParticipantId < pid
      · simp [h1, h2, h3] at h
      · simp [h1, h2, h3] at h
        subst h
        exact ⟨rfl, h3⟩
    · simp [h1, h2] at h

theorem handleNewParticipant_fresh (st : CallState) (pid : String)
    (h0 : st.localParticipantId ≠ "")
    (hl : alookup pid st.peerConnections = some freshPC) :
    (handleNewParticipant st pid).2 = [Msg.offer pid] := by
  have hr : recreateIfClosed st pid = st :=
    recreateIfClosed_id st hl (by simp [freshPC]) (by simp [freshPC])
  simp [handleNewParticipant, h0, hr, hl, freshPC]

theorem processParticipant_sends (st : CallState) (pid : String)
    (h0 : st.localParticipantId ≠ "") (h1 : pid ≠ "") (h2 : pid ≠ st.localParticipantId)
    (h3 : alookup pid st.peerConnections = none) (h4 : st.localParticipantId < pid) :
    Msg.offer pid ∈ (processParticipant st pid).2.1 := by
  have h12 : ¬(pid = "" ∨ pid = st.localParticipantId) := by
    push_neg
    exact ⟨h1, h2⟩
  have hn : rosterNeeds st pid = true := by
    unfold rosterNeeds
    rw [h3]
  have hfresh : alookup pid (createPeerConnection st pid).peerConnections = some freshPC := by
    rw [createPeerConnection_lookup_self, h3]
    rfl
  have h0' : (createPeerConnection st pid).localParticipantId ≠ "" := by
    rwa [createPeerConnection_local]
  simp [processParticipant, h12, hn, h4,
    handleNewParticipant_fresh _ pid h0' hfresh]

theorem processList_local (st : CallState) (ids : List String) :
    (processList st ids).1.localParticipantId = st.localParticipantId := by
  induction ids generalizing st with
  | nil => rfl
  | cons pid rest ih => simp [processList, ih, processParticipant_local]

theorem processList_streams (st : CallState) (ids : List String) :
    (processList st ids).1.remoteStreams = st.remoteStreams := by
  induction ids generalizing st with
  | nil => rfl
  | cons pid rest ih => simp [processList, ih, processParticipant_streams]

theorem processList_isSome (st : CallState) (ids : List String) (k : String)
    (h : (alookup k st.peerConnections).isSome) :
    (alookup k (processList st ids).1.peerConnections).isSome := by
  induction ids generalizing st with
  | nil => exact h
  | cons pid rest ih =>
      simpa [processList] using ih _ (processParticipant_isSome st pid k h)

theorem processList_newkey (st : CallState) (ids : List String) (k : String)
    (h : (alookup k (processList st ids).1.peerConnections).isSome) :
    (alookup k st.peerConnections).isSome ∨
      (k ∈ ids ∧ k ≠ "" ∧ k ≠ st.localParticipantId) := by
  induction ids generalizing st with
  | nil => exact Or.inl h
  | cons pid rest ih =>
      simp only [processList] at h
      rcases ih _ h with h1 | ⟨hmem, hne, hnl⟩
      · rcases processParticipant_newkey st pid k h1 with h2 | ⟨hk, hne, hnl⟩
        · exact Or.inl h2
        · exact Or.inr ⟨by simp [hk], hk ▸ hne, hk ▸ hnl⟩
      · rw [processParticipant_local] at hnl
        exact Or.inr ⟨List.mem_cons_of_mem _ hmem, hne, hnl⟩

theorem processList_covers (st : CallState) (ids : List String) (pid : String)
    (hmem : pid ∈ ids) (h1 : pid ≠ "") (h2 : pid ≠ st.localParticipantId) :
    (alookup pid (processList st ids).1.peerConnections).isSome := by
  induction ids generalizing st with
  | nil => simp at hmem
  | cons q rest ih =>
      rcases List.mem_cons.mp hmem with hq | hq
      · subst hq
        rcases List.eq_nil_or_concat rest with hr | _
        · subst hr
          simpa [processList] using processParticipant_covers st pid h1 h2
        · simpa [processList] using
            processList_isSome _ rest pid (processParticipant_covers st pid h1 h2)
      · have h2' : pid ≠ (processParticipant st q).1.localParticipantId := by
          rwa [processParticipant_local]
        simpa [processList] using ih _ hq h2'

theorem processList_msgs (st : CallState) (ids : List String) {m : Msg}
    (h : m ∈ (processList st ids).2.1) :
    ∃ t, m = Msg.offer t ∧ st.localParticipantId < t := by
  induction ids generalizing st with
  | nil => simp [processList] at h
  | cons pid rest ih =>
      simp only [processList, List.mem_append] at h
      rcases h with h | h
      · obtain ⟨hm, hlt⟩ := processParticipant_msgs st pid h
        exact ⟨pid, hm, hlt⟩
      · obtain ⟨t, hm, hlt⟩ := ih _ h
        rw [processParticipant_local] at hlt
        exact ⟨t, hm, hlt⟩

theorem processList_timers (st : CallState) (ids : List String) {q : String}
    (h : q ∈ (processList st ids).2.2) : ¬st.localParticipantId < q := by
  induction ids generalizing st with
  | nil => simp [processList] at h
  | cons pid rest ih =>
      simp only [processList, List.mem_append] at h
      rcases h with h | h
      · exact (processParticipant_timers st pid h).2
      · have := ih _ h
        rwa [processParticipant_local] at this

theorem processList_sends (st : CallState) (ids : List String) (pid : String)
    (hmem : pid ∈ ids) (h0 : st.localParticipantId ≠ "") (h1 : pid ≠ "")
    (h2 : pid ≠ st.localParticipantId)
    (h3 : alookup pid st.peerConnections = none)
    (h4 : st.localParticipantId < pid) :
    Msg.offer pid ∈ (processList st ids).2.1 := by
  induction ids generalizing st with
  | nil => simp at hmem
  | cons q rest ih =>
      rcases List.mem_cons.mp hmem with hq | hq
      · subst hq
        simp only [processList, List.mem_append]
        exact Or.inl (processParticipant_sends st pid h0 h1 h2 h3 h4)
      · by_cases hqp : q = pid
        · subst hqp
          simp only [processList, List.mem_append]
          exact Or.inl (processParticipant_sends st q h0 h1 h2 h3 h4)
        · have h0' : (processParticipant st q).1.localParticipantId ≠ "" := by
            rwa [processParticipant_local]
          have h2' : pid ≠ (processParticipant st q).1.localParticipantId := by
            rwa [processParticipant_local]
          have h3' : alookup pid (processParticipant st q).1.peerConnections = none := by
            rwa [processParticipant_lookup_ne st hqp]
          have h4' : (processParticipant st q).1.localParticipantId < pid := by
            rwa [processParticipant_local]
          simp only [processList, List.mem_append]
          exact Or.inr (ih _ hq h0' h2' h3' h4')

theorem removeAbsent_local (ids ks : List String) (st : CallState) :
    (removeAbsent ids ks st).localParticipantId = st.localParticipantId := by
  induction ks generalizing st with
  | nil => rfl
  | cons k rest ih =>
      by_cases hk : k ∈ ids <;> simp [removeAbsent, hk, ih]

theorem removeAbsent_lookup (ids ks : List String) (st : CallState) (k : String) :
    alookup k (removeAbsent ids ks st).peerConnections =
      if k ∈ ks ∧ k ∉ ids then none else alookup k st.peerConnections := by
  induction ks generalizing st with
  | nil => simp [removeAbsent]
  | cons k0 rest ih =>
      by_cases hk0 : k0 ∈ ids
      · rw [show removeAbsent ids (k0 :: rest) st = removeAbsent ids rest st by
          simp [removeAbsent, hk0]]
        rw [ih]
        by_cases hmem : k ∈ rest ∧ k ∉ ids
        · have : k ∈ k0 :: rest ∧ k ∉ ids := ⟨List.mem_cons_of_mem _ hmem.1, hmem.2⟩
          simp [hmem, this]
        · by_cases hin : k ∈ ids
          · simp [hin]
          · have hkr : k ∉ rest := by
              intro hc
              exact hmem ⟨hc, hin⟩
            have hkk0 : ¬k = k0 := by
              intro hc
              exact hin (hc ▸ hk0)
            simp [hkr, hin, hkk0]
      · rw [show removeAbsent ids (k0 :: rest) st =
            removeAbsent ids rest
              { st with peerConnections := aremove k0 st.peerConnections,
                        remoteStreams := aremove k0 st.remoteStreams } by
          simp [removeAbsent, hk0]]
        rw [ih]
        by_cases hk : k0 = k
        · subst hk
          simp [hk0, alookup_aremove]
        · simp only [alookup_aremove, hk, if_false]
          by_cases hmem : k ∈ rest ∧ k ∉ ids
          · have : k ∈ k0 :: rest ∧ k ∉ ids := ⟨List.mem_cons_of_mem _ hmem.1, hmem.2⟩
            simp [hmem, this]
          · by_cases hin : k ∈ ids
            · simp [hin]
            · have hkr : k ∉ rest := by
                intro hc
                exact hmem ⟨hc, hin⟩
              have hkk0 : ¬k = k0 := fun hc => hk hc.symm
              simp [hkr, hin, hkk0]

theorem removeAbsent_streams (ids ks : List String) (st : CallState) (k : String) :
    alookup k (removeAbsent ids ks st).remoteStreams =
      if k ∈ ks ∧ k ∉ ids then none else alookup k st.remoteStreams := by
  induction ks generalizing st with
  | nil => simp [removeAbsent]
  | cons k0 rest ih =>
      by_cases hk0 : k0 ∈ ids
      · rw [show removeAbsent ids (k0 :: rest) st = removeAbsent ids rest st by
          simp [removeAbsent, hk0]]
        rw [ih]
        by_cases hmem : k ∈ rest ∧ k ∉ ids
        · have : k ∈ k0 :: rest ∧ k ∉ ids := ⟨List.mem_cons_of_mem _ hmem.1, hmem.2⟩
          simp [hmem, this]
        · by_cases hin : k ∈ ids
          · simp [hin]
          · have hkr : k ∉ rest := by
              intro hc
              exact hmem ⟨hc, hin⟩
            have hkk0 : ¬k = k0 := by
              intro hc
              exact hin (hc ▸ hk0)
            simp [hkr, hin, hkk0]
      · rw [show removeAbsent ids (k0 :: rest) st =
            removeAbsent ids rest
              { st with peerConnections := aremove k0 st.peerConnections,
                        remoteStreams := aremove k0 st.remoteStreams } by
          simp [removeAbsent, hk0]]
        rw [ih]
        by_cases hk : k0 = k
        · subst hk
          simp [hk0, alookup_aremove]
        · simp only [alookup_aremove, hk, if_false]
          by_cases hmem : k ∈ rest ∧ k ∉ ids
          · have : k ∈ k0 :: rest ∧ k ∉ ids := ⟨List.mem_cons_of_mem _ hmem.1, hmem.2⟩
            simp [hmem, this]
          · by_cases hin : k ∈ ids
            · simp [hin]
            · have hkr : k ∉ rest := by
                intro hc
                exact hmem ⟨hc, hin⟩
              have hkk0 : ¬k = k0 := fun hc => hk hc.symm
              simp [hkr, hin, hkk0]

theorem removeAbsent_noop (ids ks : List String) (st : CallState)
    (h : ∀ k ∈ ks, k ∈ ids) : removeAbsent ids ks st = st := by
  induction ks generalizing st with
  | nil => rfl
  | cons k rest ih =>
      have hk : k ∈ ids := h k (List.mem_cons_self k rest)
      rw [show removeAbsent ids (k :: rest) st = removeAbsent ids rest st by
        simp [removeAbsent, hk]]
      exact ih st fun q hq => h q (List.mem_cons_of_mem _ hq)

theorem processRoster_state_def (st : CallState) (parts : List Participant) :
    (processRoster st parts).1 =
      removeAbsent (parts.map Participant.id)
        ((processList st (parts.map Participant.id)).1.peerConnections.map Prod.fst)
        (processList st (parts.map Participant.id)).1 := rfl

theorem processRoster_msgs_def (st : CallState) (parts : List Participant) :
    (processRoster st parts).2.1 = (processList st (parts.map Participant.id)).2.1 := rfl

theorem processRoster_timers_def (st : CallState) (parts : List Participant) :
    (processRoster st parts).2.2 = (processList st (parts.map Participant.id)).2.2 := rfl

theorem processRoster_local (st : CallState) (parts : List Participant) :
    (processRoster st parts).1.localParticipantId = st.localParticipantId := by
  rw [processRoster_state_def, removeAbsent_local, processList_local]

/-- After the `participants` branch, every registry key is an id of the
snapshot. -/
theorem processRoster_keys_sub (st : CallState) (parts : List Participant) (k : String)
    (h : (alookup k (processRoster st parts).1.peerConnections).isSome) :
    k ∈ parts.map Participant.id := by
  rw [processRoster_state_def, removeAbsent_lookup] at h
  by_cases hcond : k ∈ (processList st (parts.map Participant.id)).1.peerConnections.map
      Prod.fst ∧ k ∉ parts.map Participant.id
  · rw [if_pos hcond] at h
    simp at h
  · rw [if_neg hcond] at h
    have hkeys := (alookup_isSome_iff _ _).1 h
    by_contra hni
    exact hcond ⟨hkeys, hni⟩

/-- Single-snapshot key-set characterization: after the `participants`
branch the registry keys are exactly the snapshot's ids minus the local id,
provided the registry held no entry for the local id and the snapshot's ids
are nonempty. -/
theorem processRoster_keys (st : CallState) (parts : List Participant)
    (hloc : alookup st.localParticipantId st.peerConnections = none)
    (hids : ∀ p ∈ parts, p.id ≠ "") (k : String) :
    (alookup k (processRoster st parts).1.peerConnections).isSome ↔
      (k ∈ parts.map Participant.id ∧ k ≠ st.localParticipantId) := by
  constructor
  · intro h
    refine ⟨processRoster_keys_sub st parts k h, ?_⟩
    rw [processRoster_state_def, removeAbsent_lookup] at h
    intro hkl
    subst hkl
    by_cases hcond : st.localParticipantId ∈
        (processList st (parts.map Participant.id)).1.peerConnections.map Prod.fst ∧
        st.localParticipantId ∉ parts.map Participant.id
    · rw [if_pos hcond] at h
      simp at h
    · rw [if_neg hcond] at h
      rcases processList_newkey st _ _ h with h1 | ⟨_, _, hnl⟩
      · rw [hloc] at h1
        simp at h1
      · exact hnl rfl
  · rintro ⟨hin, hne⟩
    have h1 : k ≠ "" := by
      obtain ⟨p, hp, hpid⟩ := List.mem_map.mp hin
      rw [← hpid]
      exact hids p hp
    have hsome : (alookup k (processList st (parts.map Participant.id)).1.peerConnections).isSome :=
      processList_covers st _ k hin h1 hne
    rw [processRoster_state_def, removeAbsent_lookup]
    rw [if_neg (by intro hc; exact hc.2 hin)]
    exact hsome

/-- The roster branch never creates an entry for the local id. -/
theorem processRoster_no_self (st : CallState) (parts : List Participant)
    (hloc : alookup st.localParticipantId st.peerConnections = none) :
    alookup (processRoster st parts).1.localParticipantId
      (processRoster st parts).1.peerConnections = none := by
  rw [processRoster_local]
  have hmid : alookup st.localParticipantId
      (processList st (parts.map Participant.id)).1.peerConnections = none := by
    rcases hm : alookup st.localParticipantId
        (processList st (parts.map Participant.id)).1.peerConnections with _ | pc
    · rfl
    · exfalso
      have hs : (alookup st.localParticipantId
          (processList st (parts.map Participant.id)).1.peerConnections).isSome := by
        simp [hm]
      rcases processList_newkey st _ _ hs with h1 | ⟨_, _, hnl⟩
      · rw [hloc] at h1
        simp at h1
      · exact hnl rfl
  rw [processRoster_state_def, removeAbsent_lookup]
  by_cases hcond : st.localParticipantId ∈
      (processList st (parts.map Participant.id)).1.peerConnections.map Prod.fst ∧
      st.localParticipantId ∉ parts.map Participant.id
  · rw [if_pos hcond]
  · rw [if_neg hcond]
    exact hmid

theorem createPeerConnection_noop (st : CallState) {pid : String}
    (h : (alookup pid st.peerConnections).isSome) :
    createPeerConnection st pid = st := by
  rcases hl : alookup pid st.peerConnections with _ | pc
  · rw [hl] at h
    simp at h
  · simp [createPeerConnection, hl]

theorem recreateIfClosed_noop (st : CallState) {pid : String}
    (h : (alookup pid st.peerConnections).isSome) : recreateIfClosed st pid = st := by
  rcases recreateIfClosed_eq st pid with h1 | h1 <;> rw [h1]
  exact createPeerConnection_noop st h

theorem handleNewParticipant_unset (st : CallState) (pid : String)
    (h : st.localParticipantId = "") : handleNewParticipant st pid = (st, []) := by
  simp [handleNewParticipant, h]

theorem handleNewParticipant_notstable (st : CallState) {pid : String} {pc : PC}
    (hl : alookup pid st.peerConnections = some pc)
    (hs : pc.signalingState ≠ SigState.stable) :
    handleNewParticipant st pid = (st, []) := by
  by_cases h0 : st.localParticipantId = ""
  · simp [handleNewParticipant, h0]
  · have hr : recreateIfClosed st pid = st := recreateIfClosed_noop st (by simp [hl])
    simp [handleNewParticipant, h0, hr, hl, hs]

theorem handleNewParticipant_stable (st : CallState) {pid : String} {pc : PC}
    (h0 : st.localParticipantId ≠ "")
    (hl : alookup pid st.peerConnections = some pc)
    (hs : pc.signalingState = SigState.stable) :
    handleNewParticipant st pid =
      ({ st with peerConnections :=
          (aset pid { pc with signalingState := SigState.haveLocalOffer }
            st.peerConnections) },
       [Msg.offer pid]) := by
  have hr : recreateIfClosed st pid = st := recreateIfClosed_noop st (by simp [hl])
  simp [handleNewParticipant, h0, hr, hl, hs]

/-- Processing a roster entry for `pid` is a no-op (same state, no sent
messages) exactly in these situations: invalid or local id, no connection
needed, or a registered entry that the initiator path would not re-offer
to. -/
def QuietCond (st : CallState) (pid : String) : Prop :=
  pid = "" ∨ pid = st.localParticipantId ∨
  rosterNeeds st pid = false ∨
  ((alookup pid st.peerConnections).isSome ∧
    (st.localParticipantId < pid →
      st.localParticipantId = "" ∨
      ∀ pc, alookup pid st.peerConnections = some pc →
        pc.signalingState ≠ SigState.stable))

theorem quietCond_sound (st : CallState) (pid : String) (h : QuietCond st pid) :
    (processParticipant st pid).1 = st ∧ (processParticipant st pid).2.1 = [] := by
  by_cases h1 : pid = "" ∨ pid = st.localParticipantId
  · simp [processParticipant, h1]
  · by_cases h2 : rosterNeeds st pid = true
    · have h4 : (alookup pid st.peerConnections).isSome ∧
          (st.localParticipantId < pid →
            st.localParticipantId = "" ∨
            ∀ pc, alookup pid st.peerConnections = some pc →
              pc.signalingState ≠ SigState.stable) := by
        rcases h with h | h | h | h
        · exact absurd (Or.inl h) h1
        · exact absurd (Or.inr h) h1
        · rw [h] at h2
          simp at h2
        · exact h
      obtain ⟨hsome, hguard⟩ := h4
      have hcr : createPeerConnection st pid = st := createPeerConnection_noop st hsome
      by_cases h3 : st.localParticipantId < pid
      · rcases hguard h3 with h0 | hns
        · have hu := handleNewParticipant_unset st pid h0
          simp [processParticipant, h1, h2, h3, hcr, hu]
        · rcases hl : alookup pid st.peerConnections with _ | pc
          · rw [hl] at hsome
            simp at hsome
          · have hn := handleNewParticipant_notstable st hl (hns pc hl)
            simp [processParticipant, h1, h2, h3, hcr, hn]
      · simp [processParticipant, h1, h2, h3, hcr]
    · simp [processParticipant, h1, h2]

theorem quietCond_self (st : CallState) (pid : String) :
    QuietCond (processParticipant st pid).1 pid := by
  by_cases h1 : pid = "" ∨ pid = st.localParticipantId
  · rcases h1 with h | h
    · exact Or.inl h
    · refine Or.inr (Or.inl ?_)
      rw [processParticipant_local]
      exact h
  · by_cases h2 : rosterNeeds st pid = true
    · by_cases h3 : st.localParticipantId < pid
      · by_cases h0 : st.localParticipantId = ""
        · have hu := handleNewParticipant_unset (createPeerConnection st pid) pid
            (by rwa [createPeerConnection_local])
          have hres : (processParticipant st pid).1 = createPeerConnection st pid := by
            simp [processParticipant, h1, h2, h3, hu]
          refine Or.inr (Or.inr (Or.inr ⟨?_, ?_⟩))
          · rw [hres, createPeerConnection_lookup_self]
            rfl
          · intro _
            refine Or.inl ?_
            rw [hres, createPeerConnection_local]
            exact h0
        · rcases hl : alookup pid (createPeerConnection st pid).peerConnections with _ | pcx
          · rw [createPeerConnection_lookup_self] at hl
            simp at hl
          · have h0' : (createPeerConnection st pid).localParticipantId ≠ "" := by
              rwa [createPeerConnection_local]
            by_cases hs : pcx.signalingState = SigState.stable
            · have hst := handleNewParticipant_stable (createPeerConnection st pid) h0' hl hs
              have hres : (processParticipant st pid).1 =
                  { createPeerConnection st pid with peerConnections :=
                      (aset pid { pcx with signalingState := SigState.haveLocalOffer }
                        (createPeerConnection st pid).peerConnections) } := by
                simp [processParticipant, h1, h2, h3, hst]
              refine Or.inr (Or.inr (Or.inr ⟨?_, ?_⟩))
              · rw [hres]
                simp [alookup_aset]
              · intro _
                refine Or.inr ?_
                intro pc' hpc'
                rw [hres] at hpc'
                simp [alookup_aset] at hpc'
                rw [← hpc']
                simp
            · have hn := handleNewParticipant_notstable (createPeerConnection st pid) hl hs
              have hres : (processParticipant st pid).1 = createPeerConnection st pid := by
                simp [processParticipant, h1, h2, h3, hn]
              refine Or.inr (Or.inr (Or.inr ⟨?_, ?_⟩))
              · rw [hres, hl]
                rfl
              · intro _
                refine Or.inr ?_
                intro pc' hpc'
                rw [hres, hl] at hpc'
                cases hpc'
                exact hs
      · have hres : (processParticipant st pid).1 = createPeerConnection st pid := by
          simp [processParticipant, h1, h2, h3]
        refine Or.inr (Or.inr (Or.inr ⟨?_, ?_⟩))
        · rw [hres, createPeerConnection_lookup_self]
          rfl
        · intro hlt
          rw [hres, createPeerConnection_local] at hlt
          exact absurd hlt h3
    · have hres : (processParticipant st pid).1 = st := by
        simp [processParticipant, h1, h2]
      refine Or.inr (Or.inr (Or.inl ?_))
      rw [hres]
      simpa using h2

theorem quietCond_transfer {st st' : CallState} {pid : String}
    (hlocal : st'.localParticipantId = st.localParticipantId)
    (hpc : alookup pid st'.peerConnections = alookup pid st.peerConnections)
    (hstr : alookup pid st'.remoteStreams = alookup pid st.remoteStreams)
    (h : QuietCond st pid) : QuietCond st' pid := by
  have hrn : rosterNeeds st' pid = rosterNeeds st pid := by
    unfold rosterNeeds
    rw [hpc, hstr]
  rcases h with h | h | h | ⟨hsome, hguard⟩
  · exact Or.inl h
  · exact Or.inr (Or.inl (by rw [hlocal]; exact h))
  · exact Or.inr (Or.inr (Or.inl (by rw [hrn]; exact h)))
  · refine Or.inr (Or.inr (Or.inr ⟨by rw [hpc]; exact hsome, ?_⟩))
    intro hlt
    rw [hlocal] at hlt
    rcases hguard hlt with h0 | hns
    · exact Or.inl (by rw [hlocal]; exact h0)
    · refine Or.inr ?_
      intro pc hpc'
      exact hns pc (by rw [← hpc]; exact hpc')

theorem quietCond_step (st : CallState) (pid q : String) (h : QuietCond st pid) :
    QuietCond (processParticipant st q).1 pid := by
  by_cases hq : q = pid
  · subst hq
    exact quietCond_self st q
  · exact quietCond_transfer (processParticipant_local st q)
      (processParticipant_lookup_ne st hq)
      (by rw [processParticipant_streams]) h

theorem processList_quietPres (st : CallState) (ids : List String) (pid : String)
    (h : QuietCond st pid) : QuietCond (processList st ids).1 pid := by
  induction ids generalizing st with
  | nil => exact h
  | cons q rest ih => simpa [processList] using ih _ (quietCond_step st pid q h)

theorem processList_quietAll (st : CallState) (ids : List String) (pid : String)
    (hmem : pid ∈ ids) : QuietCond (processList st ids).1 pid := by
  induction ids generalizing st with
  | nil => simp at hmem
  | cons q rest ih =>
      rcases List.mem_cons.mp hmem with hq | hq
      · subst hq
        simpa [processList] using
          processList_quietPres _ rest pid (quietCond_self st pid)
      · simpa [processList] using ih _ hq

theorem processList_noop (st : CallState) (ids : List String)
    (h : ∀ pid ∈ ids, QuietCond st pid) :
    (processList st ids).1 = st ∧ (processList st ids).2.1 = [] := by
  induction ids generalizing st with
  | nil => exact ⟨rfl, rfl⟩
  | cons q rest ih =>
      obtain ⟨hs, hm⟩ := quietCond_sound st q (h q (by simp))
      obtain ⟨hs2, hm2⟩ := ih st fun p hp => h p (by simp [hp])
      refine ⟨?_, ?_⟩
      · simp [processList, hs, hs2]
      · simp [processList, hs, hm, hm2]

theorem removeAbsent_quiet (ids ks : List String) (st : CallState) (pid : String)
    (hmem : pid ∈ ids) (h : QuietCond st pid) :
    QuietCond (removeAbsent ids ks st) pid := by
  refine quietCond_transfer (removeAbsent_local ids ks st) ?_ ?_ h
  · rw [removeAbsent_lookup]
    simp [hmem]
  · rw [removeAbsent_streams]
    simp [hmem]

/-- The order on `String` is definitionally the lexicographic order on the
character lists, whose decision procedure kernel-reduces. -/
theorem string_lt_of_data {a b : String} (h : a.toList < b.toList) : a < b :=
  String.lt_iff_toList_lt.mpr h

/-! ### Claim theorems -/

/-- C9: no offer is ever sent before registration completes: while
`localParticipantId` is unset, `handleNewParticipant` — the only operation
that initiates an offer — is a no-op that sends no message and leaves the
state untouched, so negotiation starts only after the relay's `registered`
acknowledgment has set the local id. -/
theorem no_offer_before_registration (st : CallState) (pid : String)
    (h : st.localParticipantId = "") :
    handleNewParticipant st pid = (st, []) :=
  handleNewParticipant_unset st pid h

/-- Witness for C9 at a concrete unregistered state. -/
theorem no_offer_before_registration_w :
    handleNewParticipant
        { localParticipantId := "", peerConnections := [], remoteStreams := [] } "c" =
      ({ localParticipantId := "", peerConnections := [], remoteStreams := [] }, []) :=
  no_offer_before_registration _ "c" rfl

/-- C10: creating a peer session is idempotent on an existing entry: when
the participant id is already registered, `createPeerConnection` returns the
state unchanged, so an incoming offer for a peer with a live in-progress
connection never replaces or resets that connection. -/
theorem create_existing_connection_noop (st : CallState) (pid : String)
    (h : (alookup pid st.peerConnections).isSome) :
    createPeerConnection st pid = st :=
  createPeerConnection_noop st h

/-- Witness for C10 at a concrete registry holding an entry for "b". -/
theorem create_existing_connection_noop_w :
    createPeerConnection
        { localParticipantId := "a", peerConnections := [("b", freshPC)],
          remoteStreams := [] } "b" =
      { localParticipantId := "a", peerConnections := [("b", freshPC)],
        remoteStreams := [] } :=
  create_existing_connection_noop _ "b" (by decide)

/-- C3: processing the same roster snapshot twice in succession is
idempotent: the second run sends no outbound messages and leaves the
registry and the stream map (the whole state) unchanged. -/
theorem roster_processing_idempotent (st : CallState) (parts : List Participant) :
    (processRoster (processRoster st parts).1 parts).1 = (processRoster st parts).1 ∧
    (processRoster (processRoster st parts).1 parts).2.1 = [] := by
  have hquiet : ∀ pid ∈ parts.map Participant.id,
      QuietCond (processRoster st parts).1 pid := by
    intro pid hp
    have h1 : QuietCond (processList st (parts.map Participant.id)).1 pid :=
      processList_quietAll st _ pid hp
    rw [processRoster_state_def]
    exact removeAbsent_quiet _ _ _ pid hp h1
  have hrun := processList_noop (processRoster st parts).1 (parts.map Participant.id) hquiet
  have hkeys : ∀ k ∈ (processRoster st parts).1.peerConnections.map Prod.fst,
      k ∈ parts.map Participant.id := by
    intro k hk
    exact processRoster_keys_sub st parts k ((alookup_isSome_iff _ _).2 hk)
  constructor
  · rw [processRoster_state_def, hrun.1]
    exact removeAbsent_noop _ _ _ hkeys
  · rw [processRoster_msgs_def]
    exact hrun.2

/-- C1: when processing a roster snapshot with the local id set, the branch
initiates an offer to a remote participant exactly when the local id is
lexicographically smaller: every offer it sends targets a lexicographically
greater id, and a participant new to the registry whose id is greater than
the local id always receives one; for the others the engine only waits. -/
theorem initiator_is_lexicographically_smaller (st : CallState) (parts : List Participant)
    (hme : st.localParticipantId ≠ "") :
    (∀ t, Msg.offer t ∈ (processRoster st parts).2.1 → st.localParticipantId < t) ∧
    (∀ p ∈ parts, p.id ≠ "" → p.id ≠ st.localParticipantId →
      alookup p.id st.peerConnections = none → st.localParticipantId < p.id →
      Msg.offer p.id ∈ (processRoster st parts).2.1) := by
  constructor
  · intro t ht
    rw [processRoster_msgs_def] at ht
    obtain ⟨t', hm, hlt⟩ := processList_msgs st _ ht
    injection hm with h
    subst h
    exact hlt
  · intro p hp h1 h2 h3 h4
    rw [processRoster_msgs_def]
    exact processList_sends st _ p.id (List.mem_map_of_mem _ hp) hme h1 h2 h3 h4

/-- Witness for C1 at the spec's registration scenario: local id "b",
roster ids "a", "b", "c"; the offer to "c" is sent. -/
theorem initiator_is_lexicographically_smaller_w :
    Msg.offer "c" ∈ (processRoster
      { localParticipantId := "b", peerConnections := [], remoteStreams := [] }
      [⟨"a", "A"⟩, ⟨"b", "B"⟩, ⟨"c", "C"⟩]).2.1 :=
  (initiator_is_lexicographically_smaller
      { localParticipantId := "b", peerConnections := [], remoteStreams := [] }
      [⟨"a", "A"⟩, ⟨"b", "B"⟩, ⟨"c", "C"⟩] (by decide)).2
    ⟨"c", "C"⟩ (by decide) (by decide) (by decide) rfl (string_lt_of_data (by decide))

/-- C2: after any two roster snapshots processed in sequence from a state
with no self entry, the registry key set equals exactly the id set of the
second snapshot minus the local id. -/
theorem registry_matches_second_snapshot (st : CallState) (s1 s2 : List Participant)
    (hloc : alookup st.localParticipantId st.peerConnections = none)
    (hids : ∀ p ∈ s2, p.id ≠ "") (k : String) :
    (alookup k (processRoster (processRoster st s1).1 s2).1.peerConnections).isSome ↔
      (k ∈ s2.map Participant.id ∧ k ≠ st.localParticipantId) := by
  have hloc1 := processRoster_no_self st s1 hloc
  have hl := processRoster_local st s1
  rw [← hl]
  exact processRoster_keys (processRoster st s1).1 s2 hloc1 hids k

/-- Witness for C2: local "b", first snapshot `[a]`, second `[b, c]`; the
key "c" is present and is exactly an id of the second snapshot other than
the local id. -/
theorem registry_matches_second_snapshot_w :
    (alookup "c" (processRoster (processRoster
        { localParticipantId := "b", peerConnections := [], remoteStreams := [] }
        [⟨"a", "A"⟩]).1
        [⟨"b", "B"⟩, ⟨"c", "C"⟩]).1.peerConnections).isSome ↔
      ("c" ∈ ([⟨"b", "B"⟩, ⟨"c", "C"⟩] : List Participant).map Participant.id ∧
        "c" ≠ "b") :=
  registry_matches_second_snapshot
    { localParticipantId := "b", peerConnections := [], remoteStreams := [] }
    [⟨"a", "A"⟩] [⟨"b", "B"⟩, ⟨"c", "C"⟩] (by decide) (by decide) "c"

theorem handleOffer_local (st : CallState) (s : String) :
    (handleOffer st s).1.localParticipantId = st.localParticipantId := by
  unfold handleOffer
  rcases hl : alookup s (createPeerConnection st s).peerConnections with _ | pc
  · simp [hl, createPeerConnection_local]
  · by_cases hs : pc.signalingState = SigState.stable
        ∨ pc.signalingState = SigState.haveRemoteOffer <;>
      simp [hl, hs, createPeerConnection_local]

theorem handleOffer_lookup_ne (st : CallState) {s k : String} (h : s ≠ k) :
    alookup k (handleOffer st s).1.peerConnections = alookup k st.peerConnections := by
  unfold handleOffer
  rcases hl : alookup s (createPeerConnection st s).peerConnections with _ | pc
  · simp [hl, createPeerConnection_lookup_ne st h]
  · by_cases hs : pc.signalingState = SigState.stable
        ∨ pc.signalingState = SigState.haveRemoteOffer <;>
      simp [hl, hs, alookup_aset, h, createPeerConnection_lookup_ne st h]

theorem handleIceCandidate_eq (st : CallState) (s : String) :
    handleIceCandidate st s = (st, []) := by
  unfold handleIceCandidate
  rcases hl : alookup s st.peerConnections with _ | pc <;> simp [hl]

theorem handleAnswer_preserve (st : CallState) (s : String)
    (hloc : alookup st.localParticipantId st.peerConnections = none) :
    alookup (handleAnswer st s).1.localParticipantId
      (handleAnswer st s).1.peerConnections = none := by
  rcases hl : alookup s st.peerConnections with _ | pc
  · simpa [handleAnswer, hl] using hloc
  · have hsl : s ≠ st.localParticipantId := by
      intro hc
      rw [hc, hloc] at hl
      cases hl
    by_cases h1 : pc.signalingState = SigState.haveLocalOffer
    · simp [handleAnswer, hl, h1, alookup_aset, hsl, hloc]
    · by_cases h2 : pc.signalingState = SigState.stable
      · have hgoal : alookup (handleNewParticipant st s).1.localParticipantId
            (handleNewParticipant st s).1.peerConnections = none := by
          rw [handleNewParticipant_local, handleNewParticipant_lookup_ne st hsl]
          exact hloc
        simpa [handleAnswer, hl, h1, h2] using hgoal
      · simpa [handleAnswer, hl, h1, h2] using hloc

/-- Concrete state for C4: local id "a", a registered session for "b" whose
signaling state is `stable`. -/
def stAnswerStable : CallState :=
  { localParticipantId := "a", peerConnections := [("b", freshPC)], remoteStreams := [] }

/-- C4 counterexample: an `answer` arriving for the `stable` session "b" is
not merely logged and ignored — the code sends a fresh offer to "b" and the
session state changes (to `have-local-offer`). -/
theorem stable_answer_not_ignored :
    (handleAnswer stAnswerStable "b").2 = [Msg.offer "b"] ∧
    (handleAnswer stAnswerStable "b").1 ≠ stAnswerStable := by decide

/-- C4 amended: receiving an `answer` for a session whose signaling state is
`stable` triggers the recovery path instead: `handleAnswer` behaves exactly
like re-initiating negotiation via `handleNewParticipant` (which sends a new
offer when the local id is set), and no error is raised; the answer is
ignored only in states other than `have-local-offer` and `stable`. -/
theorem stable_answer_reinitiates (st : CallState) (src : String) (pc : PC)
    (h1 : alookup src st.peerConnections = some pc)
    (h2 : pc.signalingState = SigState.stable) :
    handleAnswer st src = handleNewParticipant st src := by
  simp [handleAnswer, h1, h2]

/-- Witness for C4's amended claim at the concrete `stable` session. -/
theorem stable_answer_reinitiates_w :
    handleAnswer stAnswerStable "b" = handleNewParticipant stAnswerStable "b" :=
  stable_answer_reinitiates stAnswerStable "b" freshPC (by decide) (by decide)

/-- C5 counterexample: from a state with local id "a" and no self entry, an
incoming offer whose source equals the local id creates a registry entry
keyed by the local id — incoming-offer handling does not preserve the
no-self-session invariant. -/
theorem self_offer_creates_self_entry :
    (alookup "a" (handleMessage
      { localParticipantId := "a", peerConnections := [], remoteStreams := [] }
      (InMsg.offer "a")).1.peerConnections).isSome = true := by decide

/-- C5 amended: the no-self-entry invariant is preserved by every inbound
message except an offer carrying the local id as source: roster
reconciliation skips the local id, and answer/candidate handling never
creates entries; offer handling creates an entry for its source
unconditionally, so the invariant holds provided incoming offers never name
the local id as source (the relay's routing guarantees this; the code does
not check it). -/
theorem no_self_entry_preserved (st : CallState) (m : InMsg)
    (hloc : alookup st.localParticipantId st.peerConnections = none)
    (hsrc : ∀ s, m = InMsg.offer s → s ≠ st.localParticipantId) :
    alookup (handleMessage st m).1.localParticipantId
      (handleMessage st m).1.peerConnections = none := by
  cases m with
  | participants parts => exact processRoster_no_self st parts hloc
  | offer s =>
      by_cases hs : s = ""
      · simpa [handleMessage, hs] using hloc
      · have hsl : s ≠ st.localParticipantId := hsrc s rfl
        have hgoal : alookup (handleOffer st s).1.localParticipantId
            (handleOffer st s).1.peerConnections = none := by
          rw [handleOffer_local, handleOffer_lookup_ne st hsl]
          exact hloc
        simpa [handleMessage, hs] using hgoal
  | answer s =>
      by_cases hs : s = ""
      · simpa [handleMessage, hs] using hloc
      · simpa [handleMessage, hs] using handleAnswer_preserve st s hloc
  | iceCandidate s =>
      by_cases hs : s = ""
      · simpa [handleMessage, hs] using hloc
      · simpa [handleMessage, hs, handleIceCandidate_eq] using hloc
  | unknown t => simpa [handleMessage] using hloc

/-- Witness for C5's amended claim: an offer from "b" with local id "a"
leaves the registry free of a self entry. -/
theorem no_self_entry_preserved_w :
    alookup (handleMessage
        { localParticipantId := "a", peerConnections := [], remoteStreams := [] }
        (InMsg.offer "b")).1.localParticipantId
      (handleMessage
        { localParticipantId := "a", peerConnections := [], remoteStreams := [] }
        (InMsg.offer "b")).1.peerConnections = none :=
  no_self_entry_preserved
    { localParticipantId := "a", peerConnections := [], remoteStreams := [] }
    (InMsg.offer "b") (by decide)
    (by
      intro s hs
      injection hs with h
      subst h
      decide)

theorem ontrack_absent (st : CallState) (pid : String) (stream : MediaStream)
    (rest : List MediaStream) (hl : alookup pid st.remoteStreams = none) :
    ontrack st pid (stream :: rest) =
      { st with remoteStreams := aset pid [stream] (aset pid [] st.remoteStreams) } := by
  simp [ontrack, hl, alookup_aset]

theorem ontrack_dup (st : CallState) (pid : String) (stream : MediaStream)
    (rest : List MediaStream) {cur : List MediaStream}
    (hl : alookup pid st.remoteStreams = some cur)
    (hdup : stream.id ∈ cur.map MediaStream.id) :
    ontrack st pid (stream :: rest) = st := by
  have hany : cur.any (fun s => s.id == stream.id) = true := by
    rw [List.any_eq_true]
    obtain ⟨s, hs, hid⟩ := List.mem_map.mp hdup
    exact ⟨s, hs, by simp [hid]⟩
  simp [ontrack, hl, hany]

theorem ontrack_append (st : CallState) (pid : String) (stream : MediaStream)
    (rest : List MediaStream) {cur : List MediaStream}
    (hl : alookup pid st.remoteStreams = some cur)
    (hnew : stream.id ∉ cur.map MediaStream.id) :
    ontrack st pid (stream :: rest) =
      { st with remoteStreams := aset pid (cur ++ [stream]) st.remoteStreams } := by
  have hany : cur.any (fun s => s.id == stream.id) = false := by
    rw [List.any_eq_false]
    intro s hs
    simp only [beq_iff_eq]
    intro hc
    exact hnew (hc ▸ List.mem_map_of_mem MediaStream.id hs)
  simp [ontrack, hl, hany]

theorem ontrack_preserves_nodup (st : CallState) (pid : String)
    (evst : List MediaStream) (h : streamsNodup st) :
    streamsNodup (ontrack st pid evst) := by
  rcases evst with _ | ⟨stream, rest⟩
  · simpa [ontrack] using h
  · rcases hl : alookup pid st.remoteStreams with _ | cur
    · rw [ontrack_absent st pid stream rest hl]
      intro e he
      rcases mem_aset he with he1 | he2
      · rw [he1]
        simp
      · rcases mem_aset he2 with he3 | he4
        · rw [he3]
          simp
        · exact h e he4
    · by_cases hdup : stream.id ∈ cur.map MediaStream.id
      · rw [ontrack_dup st pid stream rest hl hdup]
        exact h
      · rw [ontrack_append st pid stream rest hl hdup]
        intro e he
        rcases mem_aset he with he1 | he2
        · have hcur : (cur.map MediaStream.id).Nodup := h (pid, cur) (alookup_mem hl)
          have hnd : ((cur ++ [stream]).map MediaStream.id).Nodup := by
            rw [List.map_append, List.nodup_append]
            refine ⟨hcur, by simp, ?_⟩
            intro a ha hb
            simp only [List.map_cons, List.map_nil, List.mem_singleton] at hb
            subst hb
            exact hdup ha
          rw [he1]
          exact hnd
        · exact h e he2

/-- C6: for every sequence of incoming track events, each participant's
remote-stream list keeps pairwise distinct stream ids, and a track event
whose stream id is already present for that participant leaves the whole
state unchanged, no matter how often it fires. -/
theorem stream_ids_never_duplicated (st : CallState) (h : streamsNodup st)
    (evs : List (String × List MediaStream)) :
    streamsNodup (evs.foldl (fun s e => ontrack s e.1 e.2) st) ∧
    (∀ pid stream cur, alookup pid st.remoteStreams = some cur →
      stream.id ∈ cur.map MediaStream.id → ontrack st pid [stream] = st) := by
  constructor
  · induction evs generalizing st with
    | nil => exact h
    | cons e rest ih =>
        simpa using ih _ (ontrack_preserves_nodup st e.1 e.2 h)
  · intro pid stream cur hl hdup
    exact ontrack_dup st pid stream [] hl hdup

/-- Witness for C6: a participant "p" already holding stream id "s1";
a repeated "s1" event (with a different payload) changes nothing, and a
burst of duplicate events keeps the ids pairwise distinct. -/
theorem stream_ids_never_duplicated_w :
    streamsNodup ([(("p" : String), [MediaStream.mk "s2" "v"]),
        (("p" : String), [MediaStream.mk "s2" "v"])].foldl
        (fun s e => ontrack s e.1 e.2)
        { localParticipantId := "a", peerConnections := [],
          remoteStreams := [("p", [MediaStream.mk "s1" "v"])] }) ∧
    ontrack
        { localParticipantId := "a", peerConnections := [],
          remoteStreams := [("p", [MediaStream.mk "s1" "v"])] }
        "p" [MediaStream.mk "s1" "audio"] =
      { localParticipantId := "a", peerConnections := [],
        remoteStreams := [("p", [MediaStream.mk "s1" "v"])] } := by
  have h := stream_ids_never_duplicated
    { localParticipantId := "a", peerConnections := [],
      remoteStreams := [("p", [MediaStream.mk "s1" "v"])] }
    (by
      intro e he
      simp only [List.mem_singleton] at he
      subst he
      simp)
    [(("p" : String), [MediaStream.mk "s2" "v"]), (("p" : String), [MediaStream.mk "s2" "v"])]
  exact ⟨h.1, h.2 "p" (MediaStream.mk "s1" "audio") [MediaStream.mk "s1" "v"]
    (by decide) (by decide)⟩
/-- Concrete state for C7: a connected session for "b" with one remote
stream. -/
def stConnFailed : CallState :=
  CallState.mk "a"
    [("b", { freshPC with connectionState := ConnState.connected })]
    [("b", [MediaStream.mk "s1" "v"])]

/-- C7 counterexample: when the connection state (not the ICE state) of
session "b" becomes `failed`, the connection-state handler drops the streams
but leaves the session in the registry — the id is not absent from the
registry afterwards. -/
theorem conn_failed_entry_remains :
    (alookup "b" (connStateChange stConnFailed "b"
        ConnState.failedC).peerConnections).isSome = true ∧
    alookup "b" (connStateChange stConnFailed "b" ConnState.failedC).remoteStreams
      = none := by decide

/-- C7 amended: the ICE-state handler performs the full teardown — on
`disconnected`/`failed`/`closed` it drops the participant's remote streams,
closes the connection and removes the session from the registry.  The
connection-state handler drops the remote streams on all three states but
closes and removes the registry entry only on `closed`; on `disconnected`
or `failed` the session entry deliberately remains (avoid premature
removal). -/
theorem state_change_teardown (st : CallState) (pid : String) (pc : PC)
    (h : alookup pid st.peerConnections = some pc) :
    (∀ s : IceState,
      (s = IceState.disconnectedI ∨ s = IceState.failedI ∨ s = IceState.closedI) →
      alookup pid (iceStateChange st pid s).peerConnections = none ∧
      alookup pid (iceStateChange st pid s).remoteStreams = none) ∧
    (∀ c : ConnState,
      (c = ConnState.disconnectedC ∨ c = ConnState.failedC ∨ c = ConnState.closedC) →
      alookup pid (connStateChange st pid c).remoteStreams = none ∧
      ((alookup pid (connStateChange st pid c).peerConnections = none) ↔
        c = ConnState.closedC)) := by
  constructor
  · intro s hs
    rcases hs with h1 | h1 | h1 <;> subst h1 <;>
      simp [iceStateChange, h, alookup_aremove]
  · intro c hc
    rcases hc with h1 | h1 | h1 <;> subst h1 <;>
      simp [connStateChange, h, alookup_aremove, alookup_aset]

/-- Witness for C7's amended claim at the concrete session: ICE `failed`
removes the entry and the streams; connection `failed` keeps the entry. -/
theorem state_change_teardown_w :
    (alookup "b" (iceStateChange stConnFailed "b" IceState.failedI).peerConnections = none ∧
      alookup "b" (iceStateChange stConnFailed "b" IceState.failedI).remoteStreams = none) ∧
    (alookup "b" (connStateChange stConnFailed "b" ConnState.failedC).remoteStreams = none ∧
      ((alookup "b" (connStateChange stConnFailed "b" ConnState.failedC).peerConnections
          = none) ↔ ConnState.failedC = ConnState.closedC)) :=
  ⟨(state_change_teardown stConnFailed "b"
      { freshPC with connectionState := ConnState.connected } (by decide)).1
      IceState.failedI (Or.inr (Or.inl rfl)),
   (state_change_teardown stConnFailed "b"
      { freshPC with connectionState := ConnState.connected } (by decide)).2
      ConnState.failedC (Or.inr (Or.inl rfl))⟩

/-- Concrete state for C8: local id "b" is the designated waiter for peer
"a"; the remote offer from "a" has arrived and been fully answered. -/
def stOfferAnswered : CallState :=
  (handleOffer (CallState.mk "b" [] []) "a").1

/-- C8 counterexample: the offer from "a" arrived and was answered (the
session is back in `stable`), yet the fallback timer still initiates and
sends a fresh offer to "a" because no media has arrived — the fallback does
fire although an offer already arrived. -/
theorem timer_fires_after_answered_offer :
    (handleOffer (CallState.mk "b" [] []) "a").2 = [Msg.answer "a"] ∧
    (timerExpire stOfferAnswered "a").2 = [Msg.offer "a"] := by decide

/-- C8 amended: the roster branch arms the fallback timer only on the
waiting side (never for an id lexicographically greater than the local id),
and expiry initiates only when the session still exists in signaling state
`stable` with no remote-stream entry; it stays silent whenever an offer is
mid-negotiation (state not `stable`) or streams exist — but it can fire
after an offer that was already fully answered, as the counterexample
shows. -/
theorem timer_guard (st : CallState) (pid : String) (parts : List Participant) :
    (∀ q ∈ (processRoster st parts).2.2, ¬st.localParticipantId < q) ∧
    ((timerExpire st pid).2 ≠ [] →
      ∃ pc, alookup pid st.peerConnections = some pc ∧
        pc.signalingState = SigState.stable ∧
        (alookup pid st.remoteStreams).isNone = true) ∧
    (∀ pc, alookup pid st.peerConnections = some pc →
      pc.signalingState ≠ SigState.stable → timerExpire st pid = (st, [])) ∧
    ((alookup pid st.remoteStreams).isNone = false → timerExpire st pid = (st, [])) := by
  refine ⟨?_, ?_, ?_, ?_⟩
  · intro q hq
    rw [processRoster_timers_def] at hq
    exact processList_timers st _ hq
  · intro hne
    rcases hl : alookup pid st.peerConnections with _ | pc
    · simp [timerExpire, hl] at hne
    · simp only [timerExpire, hl] at hne
      by_cases hc : pc.signalingState = SigState.stable ∧
          (alookup pid st.remoteStreams).isNone = true
      · exact ⟨pc, rfl, hc.1, hc.2⟩
      · rw [if_neg hc] at hne
        exact absurd rfl hne
  · intro pc hl hs
    simp only [timerExpire, hl]
    split
    · rename_i hcond
      exact absurd hcond.1 hs
    · rfl
  · intro hf
    rcases hl : alookup pid st.peerConnections with _ | pc
    · simp [timerExpire, hl]
    · simp only [timerExpire, hl]
      split
      · rename_i hcond
        rw [hcond.2] at hf
        cases hf
      · rfl

/-- Witness for C8's amended claim: with streams present for "a", the timer
expiry does nothing. -/
theorem timer_guard_w :
    timerExpire
        (CallState.mk "b" [("a", freshPC)] [("a", [MediaStream.mk "s1" "v"])]) "a" =
      (CallState.mk "b" [("a", freshPC)] [("a", [MediaStream.mk "s1" "v"])], []) :=
  (timer_guard
    (CallState.mk "b" [("a", freshPC)] [("a", [MediaStream.mk "s1" "v"])]) "a" []).2.2.2
    (by decide)
